import Mathlib

/-!
# Verification of the duplicate-file-finder pipeline

Shallow embedding of `src/lib.rs` of the `duplicate-file-finder` crate.

A file system is modelled as a structure of functions: `walk` gives, per root
directory, the regular-file entries that the directory walk yields without
error (the `filter_map(Result::ok).filter(is_file)` survivors of `WalkDir`);
`content` gives each path's byte content; the remaining fields record which
I/O operations succeed for each path (`metadata`, the `File::open`/read of
`quick_hash`, the `File::open` of `full_hash`, and at which 64 KiB chunk —
if any — the streaming read inside `full_hash` returns an error).

Rust `HashMap`s are modelled as association lists: `entry(k).or_default()
.push(v)` becomes `pushEntry`, and collecting an iterator of key/value pairs
into a `HashMap` (where a later pair silently replaces an earlier pair with
the same key) becomes `collectMap`.  Rayon parallel iteration is modelled
sequentially in input order; all properties proved below are insensitive to
that order except where a duplicate key makes `collectMap` drop an entry,
which is exactly the behaviour under scrutiny.

Machine integers are `Nat` with explicit reduction mod 2^64 / 2^32.  The two
hash functions used by the crate, `XxHash64` (seed 0, `twox_hash` crate) and
SHA-256 (`sha2` crate), are implemented in full and validated against
standard test vectors, including the repository's own `"Hello, world!\n"`
SHA-256 vector.
-/

namespace DupFinder

/-! ## 64-bit and 32-bit arithmetic helpers -/

def mask64 (n : Nat) : Nat := n % 18446744073709551616

def mask32 (n : Nat) : Nat := n % 4294967296

/-- Rotate a 64-bit value left by `r` (for `0 < r < 64` and `x < 2^64`). -/
def rotl64 (x r : Nat) : Nat := mask64 (x <<< r) ||| (x >>> (64 - r))

/-- Rotate a 32-bit value right by `r` (for `0 < r < 32` and `x < 2^32`). -/
def rotr32 (x r : Nat) : Nat := (x >>> r) ||| mask32 (x <<< (32 - r))

/-- Little-endian 64-bit word from eight bytes. -/
def le64 (b0 b1 b2 b3 b4 b5 b6 b7 : Nat) : Nat :=
  b0 + 256 * (b1 + 256 * (b2 + 256 * (b3 + 256 * (b4 + 256 * (b5 + 256 * (b6 + 256 * b7))))))

/-- Little-endian 32-bit word from four bytes. -/
def le32 (b0 b1 b2 b3 : Nat) : Nat :=
  b0 + 256 * (b1 + 256 * (b2 + 256 * b3))

/-! ## XxHash64 (the `twox_hash::XxHash64` hasher used by `quick_hash`)

Reference algorithm of XXH64; validated against `libxxhash` test vectors
below. -/

def xxPrime1 : Nat := 11400714785074694791
def xxPrime2 : Nat := 14029467366897019727
def xxPrime3 : Nat := 1609587929392839161
def xxPrime4 : Nat := 9650029242287828579
def xxPrime5 : Nat := 2870177450012600261

def xxRound (acc input : Nat) : Nat :=
  mask64 (rotl64 (mask64 (acc + input * xxPrime2)) 31 * xxPrime1)

def xxMergeRound (acc v : Nat) : Nat :=
  mask64 ((acc ^^^ xxRound 0 v) * xxPrime1 + xxPrime4)

def xxAvalanche (h : Nat) : Nat :=
  let h1 := mask64 ((h ^^^ (h >>> 33)) * xxPrime2)
  let h2 := mask64 ((h1 ^^^ (h1 >>> 29)) * xxPrime3)
  h2 ^^^ (h2 >>> 32)

/-- Accumulate 32-byte stripes while at least 32 bytes remain; returns the
four lane accumulators and the unconsumed tail. -/
def xxStripes (v1 v2 v3 v4 : Nat) :
    List Nat → (Nat × Nat × Nat × Nat) × List Nat
  | b0 :: b1 :: b2 :: b3 :: b4 :: b5 :: b6 :: b7 ::
    b8 :: b9 :: b10 :: b11 :: b12 :: b13 :: b14 :: b15 ::
    b16 :: b17 :: b18 :: b19 :: b20 :: b21 :: b22 :: b23 ::
    b24 :: b25 :: b26 :: b27 :: b28 :: b29 :: b30 :: b31 :: rest =>
      xxStripes (xxRound v1 (le64 b0 b1 b2 b3 b4 b5 b6 b7))
        (xxRound v2 (le64 b8 b9 b10 b11 b12 b13 b14 b15))
        (xxRound v3 (le64 b16 b17 b18 b19 b20 b21 b22 b23))
        (xxRound v4 (le64 b24 b25 b26 b27 b28 b29 b30 b31)) rest
  | l => ((v1, v2, v3, v4), l)

/-- Final byte-at-a-time mixing. -/
def xxBytes (h : Nat) : List Nat → Nat
  | [] => h
  | b :: rest =>
      xxBytes (mask64 (rotl64 (h ^^^ mask64 (b * xxPrime5)) 11 * xxPrime1)) rest

/-- Tail finalization: 8-byte rounds while possible, then an optional 4-byte
round, then single bytes. -/
def xxTail (h : Nat) : List Nat → Nat
  | b0 :: b1 :: b2 :: b3 :: b4 :: b5 :: b6 :: b7 :: rest =>
      xxTail
        (mask64 (rotl64 (h ^^^ xxRound 0 (le64 b0 b1 b2 b3 b4 b5 b6 b7)) 27 * xxPrime1
          + xxPrime4)) rest
  | b0 :: b1 :: b2 :: b3 :: rest =>
      xxBytes
        (mask64 (rotl64 (h ^^^ mask64 (le32 b0 b1 b2 b3 * xxPrime1)) 23 * xxPrime2
          + xxPrime3)) rest
  | l => xxBytes h l

/-- XXH64 of a byte list with the given seed. -/
def xxh64 (seed : Nat) (input : List Nat) : Nat :=
  let len := input.length
  let hrest : Nat × List Nat :=
    if 32 ≤ len then
      let sr := xxStripes (mask64 (seed + xxPrime1 + xxPrime2)) (mask64 (seed + xxPrime2))
        (mask64 seed) (mask64 (seed + (18446744073709551616 - xxPrime1))) input
      let v1 := sr.1.1
      let v2 := sr.1.2.1
      let v3 := sr.1.2.2.1
      let v4 := sr.1.2.2.2
      let h0 := mask64 (rotl64 v1 1 + rotl64 v2 7 + rotl64 v3 12 + rotl64 v4 18)
      (xxMergeRound (xxMergeRound (xxMergeRound (xxMergeRound h0 v1) v2) v3) v4, sr.2)
    else
      (mask64 (seed + xxPrime5), input)
  xxAvalanche (xxTail (mask64 (hrest.1 + len)) hrest.2)

/-! ## SHA-256 (the `sha2::Sha256` digest used by `full_hash`) -/

/-- The 64 SHA-256 round constants of FIPS 180-4 (decimal rendering). -/
def sha256K : List Nat :=
  [1116352408, 1899447441, 3049323471, 3921009573, 961987163, 1508970993,
   2453635748, 2870763221, 3624381080, 310598401, 607225278, 1426881987,
   1925078388, 2162078206, 2614888103, 3248222580, 3835390401, 4022224774,
   264347078, 604807628, 770255983, 1249150122, 1555081692, 1996064986,
   2554220882, 2821834349, 2952996808, 3210313671, 3336571891, 3584528711,
   113926993, 338241895, 666307205, 773529912, 1294757372, 1396182291,
   1695183700, 1986661051, 2177026350, 2456956037, 2730485921, 2820302411,
   3259730800, 3345764771, 3516065817, 3600352804, 4094571909, 275423344,
   430227734, 506948616, 659060556, 883997877, 958139571, 1322822218,
   1537002063, 1747873779, 1955562222, 2024104815, 2227730452, 2361852424,
   2428436474, 2756734187, 3204031479, 3329325298]

/-- The eight SHA-256 initial hash values of FIPS 180-4 (decimal rendering). -/
def sha256H0 : List Nat :=
  [1779033703, 3144134277, 1013904242, 2773480762, 1359893119, 2600822924, 528734635, 1541459225]

def bigSigma0 (x : Nat) : Nat := rotr32 x 2 ^^^ rotr32 x 13 ^^^ rotr32 x 22
def bigSigma1 (x : Nat) : Nat := rotr32 x 6 ^^^ rotr32 x 11 ^^^ rotr32 x 25
def smallSigma0 (x : Nat) : Nat := rotr32 x 7 ^^^ rotr32 x 18 ^^^ (x >>> 3)
def smallSigma1 (x : Nat) : Nat := rotr32 x 17 ^^^ rotr32 x 19 ^^^ (x >>> 10)

def shaCh (x y z : Nat) : Nat := (x &&& y) ^^^ ((x ^^^ 4294967295) &&& z)
def shaMaj (x y z : Nat) : Nat := (x &&& y) ^^^ (x &&& z) ^^^ (y &&& z)

/-- Big-endian 32-bit words from a byte list (length a multiple of 4). -/
def be32Words : List Nat → List Nat
  | b0 :: b1 :: b2 :: b3 :: rest => (b3 + 256 * (b2 + 256 * (b1 + 256 * b0))) :: be32Words rest
  | _ => []

/-- Message-schedule extension: `window` holds the previous 16 words, most
recent first; produces the next `n` words. -/
def shaScheduleAux (window : List Nat) : Nat → List Nat
  | 0 => []
  | n + 1 =>
      let w := mask32 (smallSigma1 (window.getD 1 0) + window.getD 6 0
        + smallSigma0 (window.getD 14 0) + window.getD 15 0)
      w :: shaScheduleAux (w :: window.take 15) n

/-- The 64-word message schedule of one block (given its 16 words). -/
def shaSchedule (w16 : List Nat) : List Nat := w16 ++ shaScheduleAux w16.reverse 48

/-- One compression round, on the 8-tuple working state, with round constant
`k` and schedule word `w`. -/
def shaRoundStep (st : Nat × Nat × Nat × Nat × Nat × Nat × Nat × Nat) (kw : Nat × Nat) :
    Nat × Nat × Nat × Nat × Nat × Nat × Nat × Nat :=
  match st, kw with
  | (a, b, c, d, e, f, g, hh), (k, w) =>
      let t1 := mask32 (hh + bigSigma1 e + shaCh e f g + k + w)
      let t2 := mask32 (bigSigma0 a + shaMaj a b c)
      (mask32 (t1 + t2), a, b, c, mask32 (d + t1), e, f, g)

/-- Compress one 64-byte block into the running hash state (8 words). -/
def shaCompress (h : List Nat) (block : List Nat) : List Nat :=
  let w := shaSchedule (be32Words block)
  let st0 : Nat × Nat × Nat × Nat × Nat × Nat × Nat × Nat :=
    (h.getD 0 0, h.getD 1 0, h.getD 2 0, h.getD 3 0, h.getD 4 0, h.getD 5 0, h.getD 6 0, h.getD 7 0)
  let st := (sha256K.zip w).foldl shaRoundStep st0
  [mask32 (h.getD 0 0 + st.1), mask32 (h.getD 1 0 + st.2.1), mask32 (h.getD 2 0 + st.2.2.1),
   mask32 (h.getD 3 0 + st.2.2.2.1), mask32 (h.getD 4 0 + st.2.2.2.2.1),
   mask32 (h.getD 5 0 + st.2.2.2.2.2.1), mask32 (h.getD 6 0 + st.2.2.2.2.2.2.1),
   mask32 (h.getD 7 0 + st.2.2.2.2.2.2.2)]

/-- Big-endian 8-byte encoding of a 64-bit value. -/
def be64Bytes (n : Nat) : List Nat :=
  [(n >>> 56) &&& 255, (n >>> 48) &&& 255, (n >>> 40) &&& 255, (n >>> 32) &&& 255,
   (n >>> 24) &&& 255, (n >>> 16) &&& 255, (n >>> 8) &&& 255, n &&& 255]

/-- SHA-256 padding: append `0x80`, zeros to 56 mod 64, then the bit length
as a big-endian 64-bit integer. -/
def sha256Pad (msg : List Nat) : List Nat :=
  let len := msg.length
  msg ++ 128 :: List.replicate ((120 - (len + 1) % 64) % 64) 0 ++ be64Bytes (mask64 (len * 8))

/-- Fold the padded message through the compression function, 64 bytes at a
time.  (Structural recursion via an explicit 64-byte pattern, so that the
kernel can evaluate digests; a padded message always has a multiple of 64
bytes, so the fallback arm only ever sees `[]`.) -/
def sha256Blocks (h : List Nat) : List Nat → List Nat
  | b0 :: b1 :: b2 :: b3 :: b4 :: b5 :: b6 :: b7 :: b8 :: b9 ::
    b10 :: b11 :: b12 :: b13 :: b14 :: b15 :: b16 :: b17 :: b18 :: b19 ::
    b20 :: b21 :: b22 :: b23 :: b24 :: b25 :: b26 :: b27 :: b28 :: b29 ::
    b30 :: b31 :: b32 :: b33 :: b34 :: b35 :: b36 :: b37 :: b38 :: b39 ::
    b40 :: b41 :: b42 :: b43 :: b44 :: b45 :: b46 :: b47 :: b48 :: b49 ::
    b50 :: b51 :: b52 :: b53 :: b54 :: b55 :: b56 :: b57 :: b58 :: b59 ::
    b60 :: b61 :: b62 :: b63 :: rest =>
      sha256Blocks (shaCompress h
        [b0, b1, b2, b3, b4, b5, b6, b7, b8, b9, b10, b11, b12, b13, b14, b15,
         b16, b17, b18, b19, b20, b21, b22, b23, b24, b25, b26, b27, b28, b29, b30, b31,
         b32, b33, b34, b35, b36, b37, b38, b39, b40, b41, b42, b43, b44, b45, b46, b47,
         b48, b49, b50, b51, b52, b53, b54, b55, b56, b57, b58, b59, b60, b61, b62, b63]) rest
  | _ => h

def hexDigit (n : Nat) : Char :=
  if n < 10 then Char.ofNat (48 + n) else Char.ofNat (87 + n)

/-- Lowercase hex rendering of one 32-bit word (8 hex digits), as produced
byte-wise by Rust's `format!("{:x}", hasher.finalize())`. -/
def wordHexChars (w : Nat) : List Char :=
  [hexDigit ((w >>> 28) &&& 15), hexDigit ((w >>> 24) &&& 15), hexDigit ((w >>> 20) &&& 15),
   hexDigit ((w >>> 16) &&& 15), hexDigit ((w >>> 12) &&& 15), hexDigit ((w >>> 8) &&& 15),
   hexDigit ((w >>> 4) &&& 15), hexDigit (w &&& 15)]

/-- The lowercase-hex SHA-256 digest of a byte list, as a string — the value
`full_hash` returns for a file whose content was read as these bytes. -/
def sha256Hex (msg : List Nat) : String :=
  String.mk ((sha256Blocks sha256H0 (sha256Pad msg)).flatMap wordHexChars)

/-! ## Association-list model of Rust `HashMap`

File paths are abstract identifiers (`Nat`).  `pushEntry m k v` is
`m.entry(k).or_default().push(v)`; `setEntry m k v` is `m.insert(k, v)`;
`collectMap` is `collect::<HashMap<_, _>>()` over an iterator of key/value
pairs, where a pair whose key is already present replaces the earlier value. -/

def pushEntry {κ : Type} [DecidableEq κ] : List (κ × List Nat) → κ → Nat → List (κ × List Nat)
  | [], k, v => [(k, [v])]
  | kv :: rest, k, v =>
      if kv.1 = k then (kv.1, kv.2 ++ [v]) :: rest else kv :: pushEntry rest k v

def setEntry {κ : Type} [DecidableEq κ] : List (κ × List Nat) → κ → List Nat → List (κ × List Nat)
  | [], k, v => [(k, v)]
  | kv :: rest, k, v =>
      if kv.1 = k then (k, v) :: rest else kv :: setEntry rest k v

def collectMap {κ : Type} [DecidableEq κ] (l : List (κ × List Nat)) : List (κ × List Nat) :=
  l.foldl (fun m kv => setEntry m kv.1 kv.2) []

/-- The value stored under key `k` (`[]` when the key is absent). -/
def valueAt {κ : Type} [DecidableEq κ] : List (κ × List Nat) → κ → List Nat
  | [], _ => []
  | kv :: rest, k => if kv.1 = k then kv.2 else valueAt rest k

/-- The key/path pairs a grouping loop iterates over: each file paired with
its key, files whose key computation fails (`None`) skipped. -/
def groupEntries {κ : Type} (g : Nat → Option κ) (files : List Nat) : List (κ × Nat) :=
  files.filterMap (fun f => (g f).map (fun k => (k, f)))

/-- The `for file in files { if let Some(k) = g(file) { map.entry(k)
.or_default().push(file) } }` loop shared by all three pipeline stages. -/
def groupByKey {κ : Type} [DecidableEq κ] (g : Nat → Option κ) (files : List Nat) :
    List (κ × List Nat) :=
  (groupEntries g files).foldl (fun m kv => pushEntry m kv.1 kv.2) []

/-- All paths appearing in the groups of a map. -/
def pathsOf {κ : Type} (m : List (κ × List Nat)) : List Nat := m.flatMap (·.2)

/-! ## The file-system model and the pipeline of `lib.rs` -/

/-- Observable behaviour of the scanned file system during one run.
`walk d` lists the regular files `WalkDir::new(d)` yields without error;
`fullReadErrAt p = some j` means the `(j+1)`-th 64 KiB chunk read inside
`full_hash` returns `Err` (reads before it succeed); `none` means no read
of `p` errors. -/
structure FileSys where
  walk : Nat → List Nat
  content : Nat → List Nat
  metaOk : Nat → Bool
  quickOpenOk : Nat → Bool
  quickReadOk : Nat → Bool
  fullOpenOk : Nat → Bool
  fullReadErrAt : Nat → Option Nat

def QUICK_HASH_SIZE : Nat := 8 * 1024

def FULL_HASH_BUFFER_SIZE : Nat := 64 * 1024

/-- `file.metadata().ok()?.len()` — the file's length, `none` on error. -/
def metaSize (fs : FileSys) (p : Nat) : Option Nat :=
  if fs.metaOk p then some (fs.content p).length else none

/-- `quick_hash`: open the file, read up to `QUICK_HASH_SIZE` bytes with a
single read (a regular file yields `min 8192 len` bytes), and XXH64-hash
exactly the bytes read, seed 0.  `None` if open or read fails. -/
def quick_hash (fs : FileSys) (p : Nat) : Option Nat :=
  if fs.quickOpenOk p then
    if fs.quickReadOk p then
      some (xxh64 0 ((fs.content p).take QUICK_HASH_SIZE))
    else none
  else none

/-- The bytes actually streamed into the SHA-256 hasher by `full_hash`'s
`while let Ok(bytes_read) = reader.read(&mut buffer)` loop: all of the
content when no read errors, and only the chunks read before the first
error otherwise (the loop exits on `Err` without propagating it). -/
def fullHashedBytes (fs : FileSys) (p : Nat) : List Nat :=
  match fs.fullReadErrAt p with
  | none => fs.content p
  | some j => (fs.content p).take (j * FULL_HASH_BUFFER_SIZE)

/-- `full_hash`: `None` only when `File::open` fails; otherwise the hex
SHA-256 digest of whatever bytes the read loop consumed. -/
def full_hash (fs : FileSys) (p : Nat) : Option String :=
  if fs.fullOpenOk p then some (sha256Hex (fullHashedBytes fs p)) else none

/-- `collect_files`: concatenation of the per-root walks, no deduplication. -/
def collect_files (fs : FileSys) (dirs : List Nat) : List Nat :=
  dirs.flatMap fs.walk

/-- `group_by_size`: group all discovered files by metadata length. -/
def group_by_size (fs : FileSys) (files : List Nat) : List (Nat × List Nat) :=
  groupByKey (metaSize fs) files

/-- The `(quick-hash, group)` pairs emitted by `group_by_quick_hash`'s
`flat_map_iter` before they are collected into one `HashMap`: size buckets
with at least two members, sub-grouped by `quick_hash`, singleton sub-groups
discarded. -/
def qhPairs (fs : FileSys) (size_map : List (Nat × List Nat)) : List (Nat × List Nat) :=
  (size_map.filter (fun kv => decide (1 < kv.2.length))).flatMap
    (fun kv => (groupByKey (quick_hash fs) kv.2).filter (fun grp => decide (1 < grp.2.length)))

/-- `group_by_quick_hash`: the emitted pairs collected into a `HashMap`;
a later pair with an already-present key replaces the earlier group. -/
def group_by_quick_hash (fs : FileSys) (size_map : List (Nat × List Nat)) :
    List (Nat × List Nat) :=
  collectMap (qhPairs fs size_map)

/-- The `(digest, group)` pairs emitted by `group_by_full_hash` before
collection: every candidate group sub-grouped by `full_hash`, singleton
sub-groups discarded. -/
def fullPairs (fs : FileSys) (potential : List (Nat × List Nat)) : List (String × List Nat) :=
  potential.flatMap
    (fun kv => (groupByKey (full_hash fs) kv.2).filter (fun grp => decide (1 < grp.2.length)))

/-- `group_by_full_hash`: the emitted pairs collected into a `HashMap`. -/
def group_by_full_hash (fs : FileSys) (potential : List (Nat × List Nat)) :
    List (String × List Nat) :=
  collectMap (fullPairs fs potential)

/-- `find_duplicates_in_dirs`: the full pipeline. -/
def find_duplicates_in_dirs (fs : FileSys) (dirs : List Nat) : List (String × List Nat) :=
  group_by_full_hash fs (group_by_quick_hash fs (group_by_size fs (collect_files fs dirs)))

/-- `find_duplicates`: single-root wrapper. -/
def find_duplicates (fs : FileSys) (dir : Nat) : List (String × List Nat) :=
  find_duplicates_in_dirs fs [dir]

/-! ## The report model (`write_output`) -/

/-- The representative size of a group: `fs::metadata(&paths[0]).map(|m|
m.len()).unwrap_or(0)`.  (Rust indexes `paths[0]` and would panic on an
empty group; the report claims below therefore assume non-empty groups.) -/
def repSize (fs : FileSys) (paths : List Nat) : Nat :=
  match paths with
  | [] => 0
  | p :: _ => (metaSize fs p).getD 0

/-- The pure core of `write_output`: the duplicate groups tagged with their
representative sizes, sorted by size descending (Rust's stable
`sort_by(|a, b| b.0.cmp(&a.0))`), together with the reported
`Total Potential Space Savings` figure `Σ size × (count − 1)` — computed,
as in the source, in `u64` arithmetic: each product
`size * (paths.len().saturating_sub(1) as u64)` and each addition of the
iterator's `sum::<u64>()` wraps mod 2^64. -/
def write_output (fs : FileSys) (duplicates : List (String × List Nat)) :
    List (Nat × List Nat) × Nat :=
  let entries := (duplicates.map (fun kv => (repSize fs kv.2, kv.2))).mergeSort
    (fun a b => decide (b.1 ≤ a.1))
  let total_savings := entries.foldl
    (fun acc e => mask64 (acc + mask64 (e.1 * (e.2.length - 1)))) 0
  (entries, total_savings)

/-! ## Auxiliary construction: removing a file from the walk

Used to state that a per-file failure "excludes only that one file": the
scan of `fs` must agree with the scan of the file system in which the walk
never yields that file at all. -/

def removeFile (fs : FileSys) (f : Nat) : FileSys :=
  { fs with walk := fun d => (fs.walk d).filter (fun p => decide (p ≠ f)) }

/-! ## Concrete file systems for witnesses and counterexamples

`bytesB9` is a 9-byte string whose XXH64 (seed 0) equals that of the 1-byte
string `[0]`; `bytesX9` and `bytesY9` are distinct 9-byte strings with equal
XXH64 (seed 0).  Both collisions were found by inverting the XXH64 tail
rounds (multiplications by odd constants and rotations are bijective mod
2^64) and are validated against the reference implementation below. -/

def bytesB9 : List Nat := [173, 82, 156, 21, 176, 107, 69, 68, 0]

def bytesX9 : List Nat := [1, 2, 3, 4, 5, 6, 7, 8, 9]

def bytesY9 : List Nat := [188, 217, 66, 119, 9, 157, 39, 203, 1]

/-- Three files under one root: paths 1 and 2 have content `[7, 7]`, path 3
has content `[9]`; every I/O operation succeeds. -/
def fsWit : FileSys where
  walk := fun d => if d = 0 then [1, 2, 3] else []
  content := fun p => if p = 1 then [7, 7] else if p = 2 then [7, 7] else if p = 3 then [9] else []
  metaOk := fun _ => true
  quickOpenOk := fun _ => true
  quickReadOk := fun _ => true
  fullOpenOk := fun _ => true
  fullReadErrAt := fun _ => none

/-- Like `fsWit`, but path 3's metadata lookup and `quick_hash` open both
fail. -/
def fsWit7 : FileSys where
  walk := fun d => if d = 0 then [1, 2, 3] else []
  content := fun p => if p = 1 then [7, 7] else if p = 2 then [7, 7] else if p = 3 then [9] else []
  metaOk := fun p => decide (p ≠ 3)
  quickOpenOk := fun p => decide (p ≠ 3)
  quickReadOk := fun _ => true
  fullOpenOk := fun _ => true
  fullReadErrAt := fun _ => none

/-- Two identical readable files whose very first 64 KiB content read inside
`full_hash` errors (open succeeds): the mid-stream-failure scenario. -/
def fsMidstream : FileSys where
  walk := fun d => if d = 0 then [1, 2] else []
  content := fun p => if p = 1 ∨ p = 2 then [7, 7] else []
  metaOk := fun _ => true
  quickOpenOk := fun _ => true
  quickReadOk := fun _ => true
  fullOpenOk := fun _ => true
  fullReadErrAt := fun _ => some 0

/-- Four fully readable files: 1 and 2 share content `[0]`, 3 and 4 share
content `bytesB9`; the two size buckets (1 byte and 9 bytes) emit the same
quick-hash key, so collecting the stage's pairs into one `HashMap`
overwrites the group of files 1 and 2. -/
def fsOverwrite : FileSys where
  walk := fun d => if d = 0 then [1, 2, 3, 4] else []
  content := fun p =>
    if p = 1 ∨ p = 2 then [0] else if p = 3 ∨ p = 4 then bytesB9 else []
  metaOk := fun _ => true
  quickOpenOk := fun _ => true
  quickReadOk := fun _ => true
  fullOpenOk := fun _ => true
  fullReadErrAt := fun _ => none

/-- Two files of equal length 9 with different content but equal XXH64
quick hash, both of which fail their first content read inside `full_hash`:
both end up hashed as the empty byte string. -/
def fsTailDiff : FileSys where
  walk := fun d => if d = 0 then [1, 2] else []
  content := fun p => if p = 1 then bytesX9 else if p = 2 then bytesY9 else []
  metaOk := fun _ => true
  quickOpenOk := fun _ => true
  quickReadOk := fun _ => true
  fullOpenOk := fun _ => true
  fullReadErrAt := fun _ => some 0

/-- Root 0 contains file 5 (content `[0]`) and files 3, 4 (content
`bytesB9`); everything readable.  Scanning `[0, 0]` walks every file twice. -/
def fsDoubled : FileSys where
  walk := fun d => if d = 0 then [5, 3, 4] else []
  content := fun p => if p = 5 then [0] else if p = 3 ∨ p = 4 then bytesB9 else []
  metaOk := fun _ => true
  quickOpenOk := fun _ => true
  quickReadOk := fun _ => true
  fullOpenOk := fun _ => true
  fullReadErrAt := fun _ => none

/-- One readable file under root 0, content `[5]`. -/
def fsSingle : FileSys where
  walk := fun d => if d = 0 then [1] else []
  content := fun p => if p = 1 then [5] else []
  metaOk := fun _ => true
  quickOpenOk := fun _ => true
  quickReadOk := fun _ => true
  fullOpenOk := fun _ => true
  fullReadErrAt := fun _ => none

/-- A concrete duplicates mapping for exercising the report contract. -/
def dupsWit : List (String × List Nat) := [("aa", [1, 2]), ("bb", [3])]

/-! ## Validation of the hash implementations against reference vectors -/

example : xxh64 0 [] = 0xef46db3751d8e999 := by decide

example : xxh64 0 [97] = 0xd24ec4f1a98c6e5b := by decide

example : xxh64 0 [97, 98, 99] = 0x44bc2cf5ad770999 := by decide

example : xxh64 0 (List.replicate 40 7) = 0x038f75b924d7fdef := by decide

/-- The repository's own `test_full_hash` vector: SHA-256 of
`"Hello, world!\n"`. -/
example :
    sha256Hex [72, 101, 108, 108, 111, 44, 32, 119, 111, 114, 108, 100, 33, 10]
      = "d9014c4624844aa5bac314773d6b689ad467fa4e1d1a50a1b8a99d5a95f72ff5" := by decide

example :
    sha256Hex [] = "e3b0c44298fc1c149afbf4c8996fb92427ae41e4649b934ca495991b7852b855" := by
  decide

example :
    sha256Hex [97, 98, 99]
      = "ba7816bf8f01cfea414140de5dae2223b00361a396177a9cb410ff61f20015ad" := by decide

/-- The constructed cross-length XXH64 collision (validated against
`libxxhash`): a 1-byte and a 9-byte input with equal quick hash. -/
example : xxh64 0 [0] = xxh64 0 bytesB9 ∧ xxh64 0 [0] = 0xe934a84adb052768 := by decide

/-- The constructed same-length XXH64 collision: distinct 9-byte inputs with
equal quick hash. -/
example :
    bytesX9 ≠ bytesY9 ∧ bytesX9.length = bytesY9.length ∧ xxh64 0 bytesX9 = xxh64 0 bytesY9 := by
  decide

/-! ## Lemmas about the association-list `HashMap` model -/

theorem valueAt_pushEntry {κ : Type} [DecidableEq κ] (m : List (κ × List Nat)) (k : κ) (v : Nat)
    (k' : κ) :
    valueAt (pushEntry m k v) k' = if k' = k then valueAt m k' ++ [v] else valueAt m k' := by
  induction m with
  | nil =>
      by_cases h : k' = k
      · subst h; simp [pushEntry, valueAt]
      · have h2 : k ≠ k' := Ne.symm h
        simp [pushEntry, valueAt, h, h2]
  | cons kv rest ih =>
      obtain ⟨a, b⟩ := kv
      by_cases h1 : a = k
      · subst h1
        by_cases h2 : k' = a
        · subst h2; simp [pushEntry, valueAt]
        · have h3 : a ≠ k' := Ne.symm h2
          simp [pushEntry, valueAt, h2, h3]
      · by_cases h2 : a = k'
        · subst h2
          simp [pushEntry, valueAt, h1]
        · simp [pushEntry, valueAt, h1, h2, ih]

theorem valueAt_foldl_pushEntry {κ : Type} [DecidableEq κ] (l : List (κ × Nat))
    (m : List (κ × List Nat)) (k : κ) :
    valueAt (l.foldl (fun m kv => pushEntry m kv.1 kv.2) m) k
      = valueAt m k ++ (l.filter (fun kv => decide (kv.1 = k))).map (·.2) := by
  induction l generalizing m with
  | nil => simp
  | cons kv rest ih =>
      simp only [List.foldl_cons, ih, valueAt_pushEntry]
      by_cases h : k = kv.1
      · simp [List.filter_cons, h.symm, List.append_assoc]
      · have h2 : kv.1 ≠ k := Ne.symm h
        simp [List.filter_cons, h2, h]

theorem groupEntries_filter_key {κ : Type} [DecidableEq κ] (g : Nat → Option κ)
    (files : List Nat) (k : κ) :
    ((groupEntries g files).filter (fun kv => decide (kv.1 = k))).map (·.2)
      = files.filter (fun f => decide (g f = some k)) := by
  induction files with
  | nil => simp [groupEntries]
  | cons f rest ih =>
      simp only [groupEntries, List.filterMap_cons] at ih ⊢
      cases hg : g f with
      | none => simp [hg, ih]
      | some k' =>
          by_cases h : k' = k
          · subst h; simp [List.filter_cons, hg, ih]
          · have h2 : g f ≠ some k := by rw [hg]; simp [h]
            simp [List.filter_cons, hg, h, h2, ih]

theorem valueAt_groupByKey {κ : Type} [DecidableEq κ] (g : Nat → Option κ) (files : List Nat)
    (k : κ) :
    valueAt (groupByKey g files) k = files.filter (fun f => decide (g f = some k)) := by
  unfold groupByKey
  rw [valueAt_foldl_pushEntry]
  simp [valueAt, groupEntries_filter_key]

theorem mem_keys_pushEntry {κ : Type} [DecidableEq κ] (m : List (κ × List Nat)) (k : κ) (v : Nat)
    (x : κ) : x ∈ (pushEntry m k v).map Prod.fst → x ∈ m.map Prod.fst ∨ x = k := by
  induction m with
  | nil =>
      intro h
      right
      simpa [pushEntry] using h
  | cons kv rest ih =>
      intro h
      by_cases h1 : kv.1 = k
      · left
        have he : pushEntry (kv :: rest) k v = (kv.1, kv.2 ++ [v]) :: rest := by
          simp [pushEntry, h1]
        rw [he, List.map_cons] at h
        rw [List.map_cons]
        exact h
      · have he : pushEntry (kv :: rest) k v = kv :: pushEntry rest k v := by
          simp [pushEntry, h1]
        rw [he, List.map_cons, List.mem_cons] at h
        rcases h with h | h
        · exact Or.inl (by rw [List.map_cons, List.mem_cons]; exact Or.inl h)
        · rcases ih h with h2 | h2
          · exact Or.inl (by rw [List.map_cons, List.mem_cons]; exact Or.inr h2)
          · exact Or.inr h2

theorem nodupKeys_pushEntry {κ : Type} [DecidableEq κ] (m : List (κ × List Nat)) (k : κ)
    (v : Nat) (h : (m.map Prod.fst).Nodup) : ((pushEntry m k v).map Prod.fst).Nodup := by
  induction m with
  | nil => simp [pushEntry]
  | cons kv rest ih =>
      simp only [List.map_cons, List.nodup_cons] at h
      by_cases h1 : kv.1 = k
      · have he : pushEntry (kv :: rest) k v = (kv.1, kv.2 ++ [v]) :: rest := by
          simp [pushEntry, h1]
        rw [he, List.map_cons, List.nodup_cons]
        exact h
      · have he : pushEntry (kv :: rest) k v = kv :: pushEntry rest k v := by
          simp [pushEntry, h1]
        rw [he, List.map_cons, List.nodup_cons]
        refine ⟨fun hmem => ?_, ih h.2⟩
        rcases mem_keys_pushEntry rest k v kv.1 hmem with h2 | h2
        · exact h.1 h2
        · exact h1 h2

theorem nodupKeys_groupByKey {κ : Type} [DecidableEq κ] (g : Nat → Option κ)
    (files : List Nat) : ((groupByKey g files).map Prod.fst).Nodup := by
  unfold groupByKey
  generalize groupEntries g files = l
  have main : ∀ (l : List (κ × Nat)) (m : List (κ × List Nat)), (m.map Prod.fst).Nodup →
      (((l.foldl (fun m kv => pushEntry m kv.1 kv.2) m)).map Prod.fst).Nodup := by
    intro l
    induction l with
    | nil => intro m hm; exact hm
    | cons kv rest ih =>
        intro m hm
        exact ih _ (nodupKeys_pushEntry m kv.1 kv.2 hm)
  exact main l [] (by simp)

theorem valueAt_of_mem {κ : Type} [DecidableEq κ] (m : List (κ × List Nat))
    (kv : κ × List Nat) (hnd : (m.map Prod.fst).Nodup) (h : kv ∈ m) :
    valueAt m kv.1 = kv.2 := by
  induction m with
  | nil => cases h
  | cons kv0 rest ih =>
      simp only [List.map_cons, List.nodup_cons] at hnd
      rcases List.mem_cons.mp h with rfl | h
      · simp [valueAt]
      · have hne : kv0.1 ≠ kv.1 := by
          intro he
          exact hnd.1 (he ▸ List.mem_map_of_mem Prod.fst h)
        simp [valueAt, hne, ih hnd.2 h]

theorem mem_of_valueAt_ne {κ : Type} [DecidableEq κ] (m : List (κ × List Nat)) (k : κ)
    (h : valueAt m k ≠ []) : (k, valueAt m k) ∈ m := by
  induction m with
  | nil => simp [valueAt] at h
  | cons kv rest ih =>
      obtain ⟨a, b⟩ := kv
      by_cases h1 : a = k
      · subst h1; simp [valueAt]
      · simp only [valueAt, h1, if_neg, not_false_iff] at h ⊢
        exact List.mem_cons_of_mem _ (ih h)

theorem mem_groupByKey_eq {κ : Type} [DecidableEq κ] (g : Nat → Option κ) (files : List Nat)
    (kv : κ × List Nat) (h : kv ∈ groupByKey g files) :
    kv.2 = files.filter (fun f => decide (g f = some kv.1)) := by
  rw [← valueAt_groupByKey g files kv.1]
  exact (valueAt_of_mem _ _ (nodupKeys_groupByKey g files) h).symm

theorem groupByKey_self_mem {κ : Type} [DecidableEq κ] (g : Nat → Option κ) (files : List Nat)
    (k : κ) (h : files.filter (fun f => decide (g f = some k)) ≠ []) :
    (k, files.filter (fun f => decide (g f = some k))) ∈ groupByKey g files := by
  have h2 := valueAt_groupByKey g files k
  have h3 : valueAt (groupByKey g files) k ≠ [] := by rw [h2]; exact h
  have h4 := mem_of_valueAt_ne (groupByKey g files) k h3
  rwa [h2] at h4

theorem mem_setEntry {κ : Type} [DecidableEq κ] (m : List (κ × List Nat)) (k : κ)
    (v : List Nat) (kv : κ × List Nat) (h : kv ∈ setEntry m k v) : kv ∈ m ∨ kv = (k, v) := by
  induction m with
  | nil => simpa [setEntry] using h
  | cons kv0 rest ih =>
      by_cases h1 : kv0.1 = k
      · simp only [setEntry, h1, if_pos, List.mem_cons] at h
        rcases h with h | h
        · exact Or.inr h
        · exact Or.inl (List.mem_cons_of_mem _ h)
      · simp only [setEntry, h1, if_neg, not_false_iff, List.mem_cons] at h
        rcases h with h | h
        · exact Or.inl (h ▸ List.mem_cons_self _ _)
        · rcases ih h with h2 | h2
          · exact Or.inl (List.mem_cons_of_mem _ h2)
          · exact Or.inr h2

theorem mem_collectMap {κ : Type} [DecidableEq κ] (l : List (κ × List Nat))
    (kv : κ × List Nat) (h : kv ∈ collectMap l) : kv ∈ l := by
  have main : ∀ (l : List (κ × List Nat)) (m : List (κ × List Nat)),
      kv ∈ l.foldl (fun m kv => setEntry m kv.1 kv.2) m → kv ∈ m ∨ kv ∈ l := by
    intro l
    induction l with
    | nil => intro m hm; exact Or.inl hm
    | cons kv0 rest ih =>
        intro m hm
        rcases ih _ hm with h2 | h2
        · rcases mem_setEntry m kv0.1 kv0.2 kv h2 with h3 | h3
          · exact Or.inl h3
          · exact Or.inr (by simp [h3])
        · exact Or.inr (List.mem_cons_of_mem _ h2)
  rcases main l [] h with h2 | h2
  · cases h2
  · exact h2

theorem setEntry_not_mem {κ : Type} [DecidableEq κ] (m : List (κ × List Nat)) (k : κ)
    (v : List Nat) (h : k ∉ m.map Prod.fst) : setEntry m k v = m ++ [(k, v)] := by
  induction m with
  | nil => simp [setEntry]
  | cons kv rest ih =>
      simp only [List.map_cons, List.mem_cons, not_or] at h
      have h1 : kv.1 ≠ k := fun he => h.1 he.symm
      simp [setEntry, h1, ih h.2]

theorem collectMap_eq_self {κ : Type} [DecidableEq κ] (l : List (κ × List Nat))
    (hnd : (l.map Prod.fst).Nodup) : collectMap l = l := by
  have main : ∀ (l : List (κ × List Nat)) (m : List (κ × List Nat)),
      (l.map Prod.fst).Nodup → (∀ k ∈ l.map Prod.fst, k ∉ m.map Prod.fst) →
      l.foldl (fun m kv => setEntry m kv.1 kv.2) m = m ++ l := by
    intro l
    induction l with
    | nil => intro m _ _; simp
    | cons kv rest ih =>
        intro m hnd hdisj
        simp only [List.map_cons, List.nodup_cons] at hnd
        have h1 : kv.1 ∉ m.map Prod.fst := hdisj kv.1 (by simp)
        simp only [List.foldl_cons, setEntry_not_mem m kv.1 kv.2 h1]
        rw [ih (m ++ [(kv.1, kv.2)]) hnd.2]
        · simp
        · intro k hk
          simp only [List.map_append, List.mem_append, not_or]
          refine ⟨fun hm => hdisj k (by simp [hk]) hm, ?_⟩
          simp only [List.map_cons, List.map_nil, List.mem_singleton]
          intro he
          exact hnd.1 (he ▸ hk)
  simpa using main l [] hnd (by simp)

/-! ## Stage-level lemmas

Both hash stages have the same shape: over a list of candidate groups,
sub-group each by a key function, discard singleton sub-groups, and collect
the emitted pairs into one map. -/

theorem mem_hashStage {κ₁ κ₂ : Type} [DecidableEq κ₂] (g : Nat → Option κ₂)
    (pot : List (κ₁ × List Nat)) (kv : κ₂ × List Nat)
    (h : kv ∈ collectMap (pot.flatMap
      (fun b => (groupByKey g b.2).filter (fun grp => decide (1 < grp.2.length))))) :
    ∃ b ∈ pot, 1 < kv.2.length ∧ kv.2 = b.2.filter (fun f => decide (g f = some kv.1)) := by
  have h1 := mem_collectMap _ _ h
  rw [List.mem_flatMap] at h1
  obtain ⟨b, hb, h2⟩ := h1
  rw [List.mem_filter] at h2
  exact ⟨b, hb, by simpa using h2.2, mem_groupByKey_eq g b.2 kv h2.1⟩

theorem hashStage_mem {κ₁ κ₂ : Type} [DecidableEq κ₂] (g : Nat → Option κ₂)
    (pot : List (κ₁ × List Nat)) (b : κ₁ × List Nat) (k : κ₂)
    (hb : b ∈ pot)
    (hnd : ((pot.flatMap (fun b => (groupByKey g b.2).filter
        (fun grp => decide (1 < grp.2.length)))).map Prod.fst).Nodup)
    (hlen : 1 < (b.2.filter (fun f => decide (g f = some k))).length) :
    (k, b.2.filter (fun f => decide (g f = some k)))
      ∈ collectMap (pot.flatMap (fun b => (groupByKey g b.2).filter
        (fun grp => decide (1 < grp.2.length)))) := by
  rw [collectMap_eq_self _ hnd, List.mem_flatMap]
  refine ⟨b, hb, ?_⟩
  rw [List.mem_filter]
  constructor
  · refine groupByKey_self_mem g b.2 k ?_
    intro he
    rw [he] at hlen
    simp at hlen
  · simpa using hlen

/-- Tracing a confirmed duplicate group back to its quick-hash candidate
group: every group in the final output has more than one member, and equals
the subset of some quick-hash group whose `full_hash` is its digest. -/
theorem mem_output_trace (fs : FileSys) (dirs : List Nat) (kv : String × List Nat)
    (h : kv ∈ find_duplicates_in_dirs fs dirs) :
    1 < kv.2.length ∧
      ∃ b ∈ group_by_quick_hash fs (group_by_size fs (collect_files fs dirs)),
        kv.2 = b.2.filter (fun f => decide (full_hash fs f = some kv.1)) := by
  obtain ⟨b, hb, hlen, heq⟩ := mem_hashStage (full_hash fs) _ kv h
  exact ⟨hlen, b, hb, heq⟩

/-- Tracing a quick-hash group back to its size bucket. -/
theorem mem_qhmap_trace (fs : FileSys) (sm : List (Nat × List Nat)) (kv : Nat × List Nat)
    (h : kv ∈ group_by_quick_hash fs sm) :
    ∃ b ∈ sm.filter (fun kv => decide (1 < kv.2.length)),
      1 < kv.2.length ∧ kv.2 = b.2.filter (fun f => decide (quick_hash fs f = some kv.1)) := by
  obtain ⟨b, hb, hlen, heq⟩ := mem_hashStage (quick_hash fs) _ kv h
  exact ⟨b, hb, hlen, heq⟩

/-- Master completeness lemma: whenever the files with metadata size `s`,
quick hash `h` and digest `d` number more than one, and neither hash stage
emits a duplicate key (so that collecting the stage's pairs into a `HashMap`
overwrites nothing), those files form a group of the final output, keyed by
their digest. -/
theorem find_duplicates_complete (fs : FileSys) (dirs : List Nat) (s hq : Nat) (d : String)
    (hNq : ((qhPairs fs (group_by_size fs (collect_files fs dirs))).map Prod.fst).Nodup)
    (hNf : ((fullPairs fs (group_by_quick_hash fs
      (group_by_size fs (collect_files fs dirs)))).map Prod.fst).Nodup)
    (hlen : 1 < ((((collect_files fs dirs).filter
        (fun f => decide (metaSize fs f = some s))).filter
        (fun f => decide (quick_hash fs f = some hq))).filter
        (fun f => decide (full_hash fs f = some d))).length) :
    (d, (((collect_files fs dirs).filter
        (fun f => decide (metaSize fs f = some s))).filter
        (fun f => decide (quick_hash fs f = some hq))).filter
        (fun f => decide (full_hash fs f = some d)))
      ∈ find_duplicates_in_dirs fs dirs := by
  have hle1 := List.length_filter_le (fun f => decide (full_hash fs f = some d))
    (((collect_files fs dirs).filter (fun f => decide (metaSize fs f = some s))).filter
      (fun f => decide (quick_hash fs f = some hq)))
  have hle2 := List.length_filter_le (fun f => decide (quick_hash fs f = some hq))
    ((collect_files fs dirs).filter (fun f => decide (metaSize fs f = some s)))
  have hlenQ : 1 < (((collect_files fs dirs).filter
      (fun f => decide (metaSize fs f = some s))).filter
      (fun f => decide (quick_hash fs f = some hq))).length := lt_of_lt_of_le hlen hle1
  have hlenB : 1 < ((collect_files fs dirs).filter
      (fun f => decide (metaSize fs f = some s))).length := lt_of_lt_of_le hlenQ hle2
  -- the size bucket of key s
  have hB : (s, (collect_files fs dirs).filter (fun f => decide (metaSize fs f = some s)))
      ∈ group_by_size fs (collect_files fs dirs) := by
    refine groupByKey_self_mem (metaSize fs) _ s ?_
    intro he
    rw [he] at hlenB
    simp at hlenB
  -- the bucket survives the > 1 filter
  have hB2 : (s, (collect_files fs dirs).filter (fun f => decide (metaSize fs f = some s)))
      ∈ (group_by_size fs (collect_files fs dirs)).filter
        (fun kv => decide (1 < kv.2.length)) := by
    rw [List.mem_filter]
    exact ⟨hB, by simpa using hlenB⟩
  -- the quick-hash stage keeps the sub-group keyed hq
  have hQ := hashStage_mem (quick_hash fs)
    ((group_by_size fs (collect_files fs dirs)).filter (fun kv => decide (1 < kv.2.length)))
    (s, (collect_files fs dirs).filter (fun f => decide (metaSize fs f = some s))) hq hB2
    hNq hlenQ
  -- the full-hash stage keeps the sub-group keyed d
  exact hashStage_mem (full_hash fs)
    (group_by_quick_hash fs (group_by_size fs (collect_files fs dirs)))
    (hq, (((collect_files fs dirs).filter
      (fun f => decide (metaSize fs f = some s))).filter
      (fun f => decide (quick_hash fs f = some hq)))) d hQ hNf hlen

/-! ## Assorted helper lemmas -/

theorem flatMap_filter_comm {α β : Type} (l : List α) (g : α → List β) (q : β → Bool) :
    l.flatMap (fun a => (g a).filter q) = (l.flatMap g).filter q := by
  induction l with
  | nil => rfl
  | cons a rest ih => simp [List.flatMap_cons, List.filter_append, ih]

theorem groupByKey_filter_none {κ : Type} [DecidableEq κ] (g : Nat → Option κ)
    (files : List Nat) (f : Nat) (hg : g f = none) :
    groupByKey g (files.filter (fun p => decide (p ≠ f))) = groupByKey g files := by
  unfold groupByKey
  congr 1
  unfold groupEntries
  induction files with
  | nil => rfl
  | cons a rest ih =>
      by_cases ha : a = f
      · subst ha
        rw [List.filter_cons, if_neg (by simp), ih, List.filterMap_cons]
        simp [hg]
      · rw [List.filter_cons, if_pos (by simp [ha]), List.filterMap_cons,
          List.filterMap_cons, ih]

theorem one_lt_length_of_mem_ne {α : Type} (l : List α) (a b : α) (ha : a ∈ l) (hb : b ∈ l)
    (hne : a ≠ b) : 1 < l.length := by
  match l with
  | [] => cases ha
  | [x] =>
      rw [List.mem_singleton] at ha hb
      exact absurd (ha.trans hb.symm) hne
  | x :: y :: rest => simp only [List.length_cons]; omega

theorem count_mul_le_sum_map (l : List Nat) (a : Nat) (g : Nat → Nat) :
    l.count a * g a ≤ (l.map g).sum := by
  induction l with
  | nil => simp
  | cons x rest ih =>
      rw [List.map_cons, List.sum_cons]
      by_cases hx : a = x
      · subst hx
        rw [List.count_cons_self, Nat.succ_mul]
        omega
      · rw [List.count_cons_of_ne hx]
        omega

theorem foldl_mask64_sum {α : Type} (g : α → Nat) (l : List α) (acc : Nat) :
    acc < 18446744073709551616 →
    l.foldl (fun a e => mask64 (a + mask64 (g e))) acc
      = mask64 (acc + (l.map (fun e => mask64 (g e))).sum) := by
  induction l generalizing acc with
  | nil =>
      intro hacc
      simp [mask64, Nat.mod_eq_of_lt hacc]
  | cons e rest ih =>
      intro hacc
      have step := ih (mask64 (acc + mask64 (g e))) (Nat.mod_lt _ (by omega))
      rw [List.foldl_cons, step, List.map_cons, List.sum_cons]
      simp only [mask64]
      rw [Nat.mod_add_mod, Nat.add_assoc]

theorem map_mask64_eq_of_sum_lt {α : Type} (g : α → Nat) (l : List α)
    (h : (l.map g).sum < 18446744073709551616) :
    l.map (fun e => mask64 (g e)) = l.map g := by
  induction l with
  | nil => rfl
  | cons e rest ih =>
      rw [List.map_cons, List.sum_cons] at h
      rw [List.map_cons, List.map_cons]
      congr 1
      · simp only [mask64]
        exact Nat.mod_eq_of_lt (by omega)
      · exact ih (by omega)

/-! ## The claims -/

/-- C1 counterexample: in `fsOverwrite`, files 1 and 2 are byte-identical
and remain readable throughout, yet no digest group of the returned mapping
contains them both: their quick-hash group shares its key with the group of
files 3 and 4 from a different size bucket (a genuine XXH64 collision), and
collecting both pairs into one `HashMap` keeps only one of them. -/
theorem C1_overwrite_counterexample :
    fsOverwrite.content 1 = fsOverwrite.content 2 ∧
      (fsOverwrite.metaOk 1 = true ∧ fsOverwrite.quickOpenOk 1 = true ∧
        fsOverwrite.quickReadOk 1 = true ∧ fsOverwrite.fullOpenOk 1 = true ∧
        fsOverwrite.fullReadErrAt 1 = none) ∧
      (fsOverwrite.metaOk 2 = true ∧ fsOverwrite.quickOpenOk 2 = true ∧
        fsOverwrite.quickReadOk 2 = true ∧ fsOverwrite.fullOpenOk 2 = true ∧
        fsOverwrite.fullReadErrAt 2 = none) ∧
      1 ∉ pathsOf (find_duplicates_in_dirs fsOverwrite [0]) ∧
      2 ∉ pathsOf (find_duplicates_in_dirs fsOverwrite [0]) := by
  decide

/-- C1 (amended): for every two distinct files reachable under the scanned
roots with identical byte contents, all of whose reads succeed, the mapping
returned by `find_duplicates_in_dirs` contains a digest group holding both —
provided neither hash stage emits two pairs with the same key (otherwise
the `HashMap` collection silently drops a whole group, see the
counterexample). -/
theorem C1_completeness_amended (fs : FileSys) (dirs : List Nat) (A B : Nat)
    (hA : A ∈ collect_files fs dirs) (hB : B ∈ collect_files fs dirs) (hAB : A ≠ B)
    (hcont : fs.content A = fs.content B)
    (hmA : fs.metaOk A = true) (hmB : fs.metaOk B = true)
    (hqoA : fs.quickOpenOk A = true) (hqoB : fs.quickOpenOk B = true)
    (hqrA : fs.quickReadOk A = true) (hqrB : fs.quickReadOk B = true)
    (hfoA : fs.fullOpenOk A = true) (hfoB : fs.fullOpenOk B = true)
    (heA : fs.fullReadErrAt A = none) (heB : fs.fullReadErrAt B = none)
    (hNq : ((qhPairs fs (group_by_size fs (collect_files fs dirs))).map Prod.fst).Nodup)
    (hNf : ((fullPairs fs (group_by_quick_hash fs
      (group_by_size fs (collect_files fs dirs)))).map Prod.fst).Nodup) :
    ∃ kv ∈ find_duplicates_in_dirs fs dirs, A ∈ kv.2 ∧ B ∈ kv.2 := by
  have hmsA : metaSize fs A = some (fs.content A).length := by simp [metaSize, hmA]
  have hmsB : metaSize fs B = some (fs.content A).length := by simp [metaSize, hmB, ← hcont]
  have hqhA : quick_hash fs A = some (xxh64 0 ((fs.content A).take QUICK_HASH_SIZE)) := by
    simp [quick_hash, hqoA, hqrA]
  have hqhB : quick_hash fs B = some (xxh64 0 ((fs.content A).take QUICK_HASH_SIZE)) := by
    simp [quick_hash, hqoB, hqrB, ← hcont]
  have hfhA : full_hash fs A = some (sha256Hex (fs.content A)) := by
    simp [full_hash, hfoA, fullHashedBytes, heA]
  have hfhB : full_hash fs B = some (sha256Hex (fs.content A)) := by
    simp [full_hash, hfoB, fullHashedBytes, heB, ← hcont]
  have hAG : A ∈ (((collect_files fs dirs).filter
      (fun f => decide (metaSize fs f = some (fs.content A).length))).filter
      (fun f => decide (quick_hash fs f
        = some (xxh64 0 ((fs.content A).take QUICK_HASH_SIZE))))).filter
      (fun f => decide (full_hash fs f = some (sha256Hex (fs.content A)))) := by
    simp only [List.mem_filter]
    refine ⟨⟨⟨hA, ?_⟩, ?_⟩, ?_⟩ <;> simp [hmsA, hqhA, hfhA]
  have hBG : B ∈ (((collect_files fs dirs).filter
      (fun f => decide (metaSize fs f = some (fs.content A).length))).filter
      (fun f => decide (quick_hash fs f
        = some (xxh64 0 ((fs.content A).take QUICK_HASH_SIZE))))).filter
      (fun f => decide (full_hash fs f = some (sha256Hex (fs.content A)))) := by
    simp only [List.mem_filter]
    refine ⟨⟨⟨hB, ?_⟩, ?_⟩, ?_⟩ <;> simp [hmsB, hqhB, hfhB]
  have hlen := one_lt_length_of_mem_ne _ A B hAG hBG hAB
  exact ⟨_, find_duplicates_complete fs dirs (fs.content A).length
    (xxh64 0 ((fs.content A).take QUICK_HASH_SIZE)) (sha256Hex (fs.content A))
    hNq hNf hlen, hAG, hBG⟩

/-- Witness for the amended C1 on a concrete scan. -/
theorem C1_completeness_witness :
    ∃ kv ∈ find_duplicates_in_dirs fsWit [0], (1 : Nat) ∈ kv.2 ∧ (2 : Nat) ∈ kv.2 :=
  C1_completeness_amended fsWit [0] 1 2 (by decide) (by decide) (by decide) (by decide)
    rfl rfl rfl rfl rfl rfl rfl rfl rfl rfl (by decide) (by decide)

/-- C2 counterexample: `fsTailDiff`'s files 1 and 2 have different 9-byte
contents whose digests also differ (so no SHA-256 collision is involved),
yet they share a digest group: both full-hash read loops fail on their
first chunk, so both files are hashed as the empty byte string. -/
theorem C2_partial_read_counterexample :
    fsTailDiff.content 1 ≠ fsTailDiff.content 2 ∧
      sha256Hex (fsTailDiff.content 1) ≠ sha256Hex (fsTailDiff.content 2) ∧
      (sha256Hex [], [1, 2]) ∈ find_duplicates_in_dirs fsTailDiff [0] := by
  refine ⟨by decide, by decide, by decide⟩

/-- C2 (amended): two files with differing contents never share a digest
group, provided both contents are fully read (no mid-stream read failure —
otherwise the digest of a partially read prefix can coincide, see the
counterexample) and their SHA-256 digests do not collide. -/
theorem C2_soundness_amended (fs : FileSys) (dirs : List Nat) (A B : Nat)
    (herrA : fs.fullReadErrAt A = none) (herrB : fs.fullReadErrAt B = none)
    (hne : fs.content A ≠ fs.content B)
    (hnocoll : sha256Hex (fs.content A) ≠ sha256Hex (fs.content B)) :
    ∀ kv ∈ find_duplicates_in_dirs fs dirs, ¬(A ∈ kv.2 ∧ B ∈ kv.2) := by
  rintro kv hkv ⟨hA, hB⟩
  obtain ⟨-, b, hb, heq⟩ := mem_output_trace fs dirs kv hkv
  rw [heq, List.mem_filter] at hA hB
  have hA2 : full_hash fs A = some kv.1 := by simpa using hA.2
  have hB2 : full_hash fs B = some kv.1 := by simpa using hB.2
  rw [full_hash] at hA2 hB2
  by_cases hoA : fs.fullOpenOk A = true
  case neg => simp [hoA] at hA2
  by_cases hoB : fs.fullOpenOk B = true
  case neg => simp [hoB] at hB2
  rw [if_pos hoA] at hA2
  rw [if_pos hoB] at hB2
  rw [fullHashedBytes, herrA] at hA2
  rw [fullHashedBytes, herrB] at hB2
  rw [Option.some.injEq] at hA2 hB2
  exact hnocoll (hA2.trans hB2.symm)

/-- Witness for the amended C2: files 1 and 3 of `fsWit` differ in content
and never share an output group. -/
theorem C2_soundness_witness :
    ¬((1 : Nat) ∈ ((sha256Hex [7, 7], [1, 2]) : String × List Nat).2 ∧
      (3 : Nat) ∈ ((sha256Hex [7, 7], [1, 2]) : String × List Nat).2) :=
  C2_soundness_amended fsWit [0] 1 3 rfl rfl (by decide) (by decide)
    (sha256Hex [7, 7], [1, 2]) (by decide)

/-- C3 (code bug): a file whose content read fails partway through full
hashing (open succeeded, the chunk read errors) is not dropped from its
group: `full_hash` returns the digest of the partially read bytes (here the
digest of the empty byte string), and the file appears in a group of the
final output together with its sibling. -/
theorem C3_midstream_bug :
    fsMidstream.fullOpenOk 1 = true ∧
      fsMidstream.fullReadErrAt 1 = some 0 ∧
      full_hash fsMidstream 1 = some (sha256Hex []) ∧
      (sha256Hex [], [1, 2]) ∈ find_duplicates_in_dirs fsMidstream [0] := by
  refine ⟨rfl, rfl, by decide, by decide⟩

/-- C4: every group in the mapping returned by `find_duplicates_in_dirs`
has at least 2 members; no singleton or empty group is ever emitted. -/
theorem C4_min_cardinality (fs : FileSys) (dirs : List Nat) (kv : String × List Nat)
    (h : kv ∈ find_duplicates_in_dirs fs dirs) : 2 ≤ kv.2.length :=
  (mem_output_trace fs dirs kv h).1

/-- Witness for C4 on a concrete scan. -/
theorem C4_min_cardinality_witness :
    2 ≤ ((sha256Hex [7, 7], [1, 2]) : String × List Nat).2.length :=
  C4_min_cardinality fsWit [0] (sha256Hex [7, 7], [1, 2]) (by decide)

/-- C5: monotonic pruning — every path in the final output occurs in the
quick-hash stage's output, and every path there occurs in a size group with
at least two members; no stage introduces a path its predecessor did not
pass on. -/
theorem C5_monotonic_pruning (fs : FileSys) (dirs : List Nat) :
    pathsOf (find_duplicates_in_dirs fs dirs)
        ⊆ pathsOf (group_by_quick_hash fs (group_by_size fs (collect_files fs dirs))) ∧
      pathsOf (group_by_quick_hash fs (group_by_size fs (collect_files fs dirs)))
        ⊆ pathsOf ((group_by_size fs (collect_files fs dirs)).filter
            (fun kv => decide (1 < kv.2.length))) := by
  constructor
  · intro p hp
    rw [pathsOf, List.mem_flatMap] at hp
    obtain ⟨kv, hkv, hpkv⟩ := hp
    obtain ⟨-, b, hb, heq⟩ := mem_output_trace fs dirs kv hkv
    rw [pathsOf, List.mem_flatMap]
    refine ⟨b, hb, ?_⟩
    rw [heq] at hpkv
    exact (List.mem_filter.mp hpkv).1
  · intro p hp
    rw [pathsOf, List.mem_flatMap] at hp
    obtain ⟨kv, hkv, hpkv⟩ := hp
    obtain ⟨b, hb, -, heq⟩ := mem_qhmap_trace fs _ kv hkv
    rw [pathsOf, List.mem_flatMap]
    refine ⟨b, hb, ?_⟩
    rw [heq] at hpkv
    exact (List.mem_filter.mp hpkv).1

/-- Witness for C5: path 1 survives into the quick-hash stage of a concrete
scan because it survives into the final output. -/
theorem C5_monotonic_pruning_witness :
    (1 : Nat) ∈ pathsOf (group_by_quick_hash fsWit (group_by_size fsWit
      (collect_files fsWit [0]))) :=
  (C5_monotonic_pruning fsWit [0]).1 (by decide)

/-- C6 counterexample: `find_duplicates_in_dirs` fixes one collection
order, but Rust's per-process-randomized `HashMap` bucket order and rayon
scheduling make the order in which each stage's emitted pairs reach
`collect::<HashMap>` vary between invocations.  Consuming the very same
emitted quick-hash pairs of `fsOverwrite`'s tree in reversed order — a
permutation of the same pairs, hence a legitimate run — produces a
different membership set than the model run: file 1 is grouped in one run
and absent from the other.  Two invocations on the same unmodified tree
can therefore return digest groups with different membership. -/
theorem C6_order_counterexample :
    ((qhPairs fsOverwrite (group_by_size fsOverwrite
        (collect_files fsOverwrite [0]))).reverse).Perm
      (qhPairs fsOverwrite (group_by_size fsOverwrite (collect_files fsOverwrite [0]))) ∧
      1 ∈ pathsOf (collectMap (fullPairs fsOverwrite (collectMap
        ((qhPairs fsOverwrite (group_by_size fsOverwrite
          (collect_files fsOverwrite [0]))).reverse)))) ∧
      1 ∉ pathsOf (find_duplicates_in_dirs fsOverwrite [0]) :=
  ⟨List.reverse_perm _, by decide, by decide⟩

/-- C6 (amended): the scan is deterministic — digest groups with identical
membership on every run over the same unmodified tree — provided neither
hash stage emits two pairs with the same key.  Then the run's result does
not depend on the unspecified collection orders at all: for `qp` ANY
permutation of the quick-hash stage's emitted pairs and `fp` ANY
permutation of the full-hash stage's pairs computed from the resulting
map, the run returns exactly the groups of `find_duplicates_in_dirs`,
because the quick hash is seeded identically (seed 0) on every invocation
and SHA-256 is deterministic.  (Without the proviso a duplicate key makes
the `HashMap` overwrite winner order-dependent — see the counterexample.) -/
theorem C6_determinism_amended (fs : FileSys) (dirs : List Nat)
    (qp : List (Nat × List Nat)) (fp : List (String × List Nat))
    (hqp : qp.Perm (qhPairs fs (group_by_size fs (collect_files fs dirs))))
    (hfp : fp.Perm (fullPairs fs (collectMap qp)))
    (hNq : ((qhPairs fs (group_by_size fs (collect_files fs dirs))).map Prod.fst).Nodup)
    (hNf : ((fullPairs fs (group_by_quick_hash fs
      (group_by_size fs (collect_files fs dirs)))).map Prod.fst).Nodup) :
    (collectMap fp).Perm (find_duplicates_in_dirs fs dirs) := by
  have hNq' : (qp.map Prod.fst).Nodup := ((hqp.map Prod.fst).nodup_iff).mpr hNq
  have hq1 : collectMap qp = qp := collectMap_eq_self qp hNq'
  have hq2 : qp.Perm (group_by_quick_hash fs (group_by_size fs (collect_files fs dirs))) := by
    rw [group_by_quick_hash, collectMap_eq_self _ hNq]
    exact hqp
  have hfp2 : (fullPairs fs (collectMap qp)).Perm (fullPairs fs
      (group_by_quick_hash fs (group_by_size fs (collect_files fs dirs)))) := by
    rw [hq1]
    exact hq2.flatMap_right _
  have hfp3 : fp.Perm (fullPairs fs (group_by_quick_hash fs
      (group_by_size fs (collect_files fs dirs)))) := hfp.trans hfp2
  have hNf' : (fp.map Prod.fst).Nodup := ((hfp3.map Prod.fst).nodup_iff).mpr hNf
  rw [collectMap_eq_self fp hNf']
  show fp.Perm (group_by_full_hash fs (group_by_quick_hash fs
    (group_by_size fs (collect_files fs dirs))))
  rw [group_by_full_hash, collectMap_eq_self _ hNf]
  exact hfp3

/-- Witness for the amended C6: a run over `fsWit` that collects both
stages' emitted pairs in reversed order returns the same digest groups as
the model run. -/
theorem C6_determinism_witness :
    (collectMap ((fullPairs fsWit (collectMap ((qhPairs fsWit (group_by_size fsWit
        (collect_files fsWit [0]))).reverse))).reverse)).Perm
      (find_duplicates_in_dirs fsWit [0]) :=
  C6_determinism_amended fsWit [0]
    ((qhPairs fsWit (group_by_size fsWit (collect_files fsWit [0]))).reverse)
    ((fullPairs fsWit (collectMap ((qhPairs fsWit (group_by_size fsWit
      (collect_files fsWit [0]))).reverse))).reverse)
    (List.reverse_perm _) (List.reverse_perm _) (by decide) (by decide)

/-- C7 counterexample: the claim promises that a file whose content becomes
unreadable after discovery is excluded from the rest of the run; but a file
whose open succeeds and whose first chunk read then fails is not excluded —
it appears in the final output (hashed as the empty prefix). -/
theorem C7_not_excluded_counterexample :
    fsMidstream.fullReadErrAt 1 = some 0 ∧
      1 ∈ pathsOf (find_duplicates_in_dirs fsMidstream [0]) :=
  ⟨rfl, by decide⟩

/-- C7 (amended): `find_duplicates_in_dirs` always returns a mapping, and a
per-file failure is non-fatal: a metadata failure excludes exactly that file
(the scan equals the scan with the file removed from the walk, all other
files' results unchanged), and a file whose `quick_hash` open or read, or
whose `full_hash` open fails appears in no output group.  (A mid-stream
`full_hash` read failure, however, does not exclude the file — see the
counterexample.) -/
theorem C7_per_file_errors_amended (fs : FileSys) (dirs : List Nat) (f : Nat) :
    (fs.metaOk f = false →
      find_duplicates_in_dirs fs dirs = find_duplicates_in_dirs (removeFile fs f) dirs) ∧
      ((fs.quickOpenOk f = false ∨ fs.quickReadOk f = false ∨ fs.fullOpenOk f = false) →
        f ∉ pathsOf (find_duplicates_in_dirs fs dirs)) := by
  constructor
  · intro hmeta
    have hmeta' : metaSize fs f = none := by simp [metaSize, hmeta]
    have hwalk : collect_files (removeFile fs f) dirs
        = (collect_files fs dirs).filter (fun p => decide (p ≠ f)) := by
      show dirs.flatMap (fun d => (fs.walk d).filter (fun p => decide (p ≠ f)))
        = (dirs.flatMap fs.walk).filter (fun p => decide (p ≠ f))
      exact flatMap_filter_comm dirs fs.walk _
    show find_duplicates_in_dirs fs dirs
      = group_by_full_hash fs (group_by_quick_hash fs (group_by_size fs
          (collect_files (removeFile fs f) dirs)))
    rw [hwalk]
    show find_duplicates_in_dirs fs dirs
      = group_by_full_hash fs (group_by_quick_hash fs (groupByKey (metaSize fs)
          ((collect_files fs dirs).filter (fun p => decide (p ≠ f)))))
    rw [groupByKey_filter_none (metaSize fs) _ f hmeta']
    rfl
  · intro hfail hmem
    rw [pathsOf, List.mem_flatMap] at hmem
    obtain ⟨kv, hkv, hf⟩ := hmem
    obtain ⟨-, b, hb, heq⟩ := mem_output_trace fs dirs kv hkv
    rw [heq, List.mem_filter] at hf
    have hfull : full_hash fs f = some kv.1 := by simpa using hf.2
    obtain ⟨b2, hb2, -, heq2⟩ := mem_qhmap_trace fs _ b hb
    have hfq := hf.1
    rw [heq2, List.mem_filter] at hfq
    have hquick : quick_hash fs f = some b.1 := by simpa using hfq.2
    rcases hfail with h | h | h
    · rw [quick_hash, h] at hquick
      simp at hquick
    · rw [quick_hash, h] at hquick
      simp at hquick
    · rw [full_hash, h] at hfull
      simp at hfull

/-- Witness for the amended C7: file 3 of `fsWit7` fails both its metadata
lookup and its quick-hash open; the scan equals the scan without it, and it
appears in no group. -/
theorem C7_per_file_errors_witness :
    (find_duplicates_in_dirs fsWit7 [0] = find_duplicates_in_dirs (removeFile fsWit7 3) [0]) ∧
      3 ∉ pathsOf (find_duplicates_in_dirs fsWit7 [0]) :=
  ⟨(C7_per_file_errors_amended fsWit7 [0] 3).1 (by decide),
    (C7_per_file_errors_amended fsWit7 [0] 3).2 (Or.inl (by decide))⟩

/-- C8: for every readable file, `quick_hash` computes the XXH64 value
(seed 0) of exactly the first `min QUICK_HASH_SIZE length` bytes of the
file — the full content for files shorter than 8 KiB and exactly the 8 KiB
prefix otherwise — so two readable files with equal prefixes and equal
lengths always receive the same quick-hash value. -/
theorem C8_quick_hash_contract (fs : FileSys) (p : Nat)
    (hopen : fs.quickOpenOk p = true) (hread : fs.quickReadOk p = true) :
    quick_hash fs p
        = some (xxh64 0 ((fs.content p).take (min QUICK_HASH_SIZE (fs.content p).length))) ∧
      ∀ q : Nat, fs.quickOpenOk q = true → fs.quickReadOk q = true →
        (fs.content p).take QUICK_HASH_SIZE = (fs.content q).take QUICK_HASH_SIZE →
        (fs.content p).length = (fs.content q).length →
        quick_hash fs p = quick_hash fs q := by
  constructor
  · rw [quick_hash, if_pos hopen, if_pos hread]
    have htake : (fs.content p).take (min QUICK_HASH_SIZE (fs.content p).length)
        = (fs.content p).take QUICK_HASH_SIZE := by
      rw [List.take_eq_take]
      omega
    rw [htake]
  · intro q hoq hrq hpre _
    rw [quick_hash, if_pos hopen, if_pos hread, quick_hash, if_pos hoq, if_pos hrq, hpre]

/-- Witness for C8 at a concrete readable file. -/
theorem C8_quick_hash_contract_witness :
    quick_hash fsWit 1
      = some (xxh64 0 ((fsWit.content 1).take (min QUICK_HASH_SIZE (fsWit.content 1).length))) :=
  (C8_quick_hash_contract fsWit 1 rfl rfl).1

/-- C9: for a duplicates mapping with non-empty groups, the report renders
the groups sorted in descending order of representative size (the size of
each group's first path, 0 if unreadable), and the total-potential-savings
figure equals Σ size(group) × (count(group) − 1) computed in the program's
wrapping 64-bit arithmetic — which coincides with the plain sum whenever
that sum fits in 64 bits. -/
theorem C9_report_contract (fs : FileSys) (dupes : List (String × List Nat))
    (hne : ∀ kv ∈ dupes, kv.2 ≠ []) :
    List.Pairwise (fun a b => b.1 ≤ a.1) (write_output fs dupes).1 ∧
      (write_output fs dupes).2
        = mask64 ((dupes.map (fun kv => mask64 (repSize fs kv.2 * (kv.2.length - 1)))).sum) ∧
      ((dupes.map (fun kv => repSize fs kv.2 * (kv.2.length - 1))).sum
          < 18446744073709551616 →
        (write_output fs dupes).2
          = (dupes.map (fun kv => repSize fs kv.2 * (kv.2.length - 1))).sum) := by
  have hsavings : (write_output fs dupes).2
      = mask64 ((dupes.map (fun kv => mask64 (repSize fs kv.2 * (kv.2.length - 1)))).sum) := by
    show ((dupes.map (fun kv => (repSize fs kv.2, kv.2))).mergeSort
        (fun a b => decide (b.1 ≤ a.1))).foldl
        (fun acc e => mask64 (acc + mask64 (e.1 * (e.2.length - 1)))) 0 = _
    rw [foldl_mask64_sum (fun e : Nat × List Nat => e.1 * (e.2.length - 1)) _ 0 (by omega)]
    have hperm := (List.mergeSort_perm (dupes.map (fun kv => (repSize fs kv.2, kv.2)))
      (fun a b => decide (b.1 ≤ a.1))).map
      (fun e : Nat × List Nat => mask64 (e.1 * (e.2.length - 1)))
    rw [Nat.zero_add, hperm.sum_eq, List.map_map]
    rfl
  refine ⟨?_, hsavings, ?_⟩
  · have hs := @List.sorted_mergeSort (Nat × List Nat)
      (fun a b : Nat × List Nat => decide (b.1 ≤ a.1))
      (fun a b c hab hbc => by
        simp only [decide_eq_true_eq] at hab hbc ⊢
        omega)
      (fun a b => by
        simp only [Bool.or_eq_true, decide_eq_true_eq]
        omega)
      (dupes.map (fun kv => (repSize fs kv.2, kv.2)))
    refine hs.imp ?_
    intro a b hab
    simpa using hab
  · intro hlt
    rw [hsavings,
      map_mask64_eq_of_sum_lt (fun kv => repSize fs kv.2 * (kv.2.length - 1)) dupes hlt]
    simp only [mask64]
    exact Nat.mod_eq_of_lt hlt

/-- Witness for C9 at a concrete duplicates mapping (no overflow, so the
figure also equals the plain sum). -/
theorem C9_report_contract_witness :
    List.Pairwise (fun a b => b.1 ≤ a.1) (write_output fsWit dupsWit).1 ∧
      (write_output fsWit dupsWit).2
        = (dupsWit.map (fun kv => repSize fsWit kv.2 * (kv.2.length - 1))).sum :=
  ⟨(C9_report_contract fsWit dupsWit (by decide)).1,
    (C9_report_contract fsWit dupsWit (by decide)).2.2 (by decide)⟩

/-- C10 counterexample: the claim promises that a readable file walked once
per listing of a doubly listed root appears multiple times in a digest
group; in `fsDoubled` file 5 is readable and walked twice, yet appears in
no group at all — its quick-hash group's key coincides with the key emitted
by a different size bucket, and the `HashMap` collection drops it. -/
theorem C10_doubled_root_counterexample :
    (5 : Nat) ∈ fsDoubled.walk 0 ∧
      (fsDoubled.metaOk 5 = true ∧ fsDoubled.quickOpenOk 5 = true ∧
        fsDoubled.quickReadOk 5 = true ∧ fsDoubled.fullOpenOk 5 = true ∧
        fsDoubled.fullReadErrAt 5 = none) ∧
      5 ∉ pathsOf (find_duplicates_in_dirs fsDoubled [0, 0]) := by
  decide

/-- C10 (amended): `collect_files` concatenates the per-root walks without
deduplication, so a file under a root listed twice is enumerated once per
listing and — provided it stays readable and neither hash stage emits two
pairs with the same key — appears with multiplicity ≥ 2 in a single digest
group of the output: a lone file is reported as a duplicate of itself. -/
theorem C10_doubled_root_amended (fs : FileSys) (dirs : List Nat) (r f : Nat)
    (hr : 2 ≤ dirs.count r) (hf : f ∈ fs.walk r)
    (hm : fs.metaOk f = true) (hqo : fs.quickOpenOk f = true) (hqr : fs.quickReadOk f = true)
    (hfo : fs.fullOpenOk f = true) (he : fs.fullReadErrAt f = none)
    (hNq : ((qhPairs fs (group_by_size fs (collect_files fs dirs))).map Prod.fst).Nodup)
    (hNf : ((fullPairs fs (group_by_quick_hash fs
      (group_by_size fs (collect_files fs dirs)))).map Prod.fst).Nodup) :
    ∃ kv ∈ find_duplicates_in_dirs fs dirs, 2 ≤ kv.2.count f := by
  have hcount : 2 ≤ (collect_files fs dirs).count f := by
    have h1 : 0 < (fs.walk r).count f := List.count_pos_iff.mpr hf
    have h2 : dirs.count r * (fs.walk r).count f ≤ (collect_files fs dirs).count f := by
      rw [collect_files, List.count_flatMap]
      exact count_mul_le_sum_map dirs r (fun d => (fs.walk d).count f)
    have h3 : 2 * 1 ≤ dirs.count r * (fs.walk r).count f := Nat.mul_le_mul hr h1
    omega
  have hms : metaSize fs f = some (fs.content f).length := by simp [metaSize, hm]
  have hqh : quick_hash fs f = some (xxh64 0 ((fs.content f).take QUICK_HASH_SIZE)) := by
    simp [quick_hash, hqo, hqr]
  have hfh : full_hash fs f = some (sha256Hex (fs.content f)) := by
    simp [full_hash, hfo, fullHashedBytes, he]
  have hGcount : ((((collect_files fs dirs).filter
      (fun p => decide (metaSize fs p = some (fs.content f).length))).filter
      (fun p => decide (quick_hash fs p
        = some (xxh64 0 ((fs.content f).take QUICK_HASH_SIZE))))).filter
      (fun p => decide (full_hash fs p = some (sha256Hex (fs.content f))))).count f
      = (collect_files fs dirs).count f := by
    rw [List.count_filter (by simp [hfh]), List.count_filter (by simp [hqh]),
      List.count_filter (by simp [hms])]
  have hlen : 1 < ((((collect_files fs dirs).filter
      (fun p => decide (metaSize fs p = some (fs.content f).length))).filter
      (fun p => decide (quick_hash fs p
        = some (xxh64 0 ((fs.content f).take QUICK_HASH_SIZE))))).filter
      (fun p => decide (full_hash fs p = some (sha256Hex (fs.content f))))).length := by
    have := List.count_le_length f ((((collect_files fs dirs).filter
      (fun p => decide (metaSize fs p = some (fs.content f).length))).filter
      (fun p => decide (quick_hash fs p
        = some (xxh64 0 ((fs.content f).take QUICK_HASH_SIZE))))).filter
      (fun p => decide (full_hash fs p = some (sha256Hex (fs.content f)))))
    omega
  refine ⟨_, find_duplicates_complete fs dirs (fs.content f).length
    (xxh64 0 ((fs.content f).take QUICK_HASH_SIZE)) (sha256Hex (fs.content f))
    hNq hNf hlen, ?_⟩
  show 2 ≤ ((((collect_files fs dirs).filter
      (fun p => decide (metaSize fs p = some (fs.content f).length))).filter
      (fun p => decide (quick_hash fs p
        = some (xxh64 0 ((fs.content f).take QUICK_HASH_SIZE))))).filter
      (fun p => decide (full_hash fs p = some (sha256Hex (fs.content f))))).count f
  omega

/-- Witness for the amended C10: scanning `[0, 0]` over a root holding one
readable file reports that file as a duplicate of itself. -/
theorem C10_doubled_root_witness :
    ∃ kv ∈ find_duplicates_in_dirs fsSingle [0, 0], 2 ≤ kv.2.count 1 :=
  C10_doubled_root_amended fsSingle [0, 0] 0 1 (by decide) (by decide)
    rfl rfl rfl rfl rfl (by decide) (by decide)

end DupFinder
